import Mathlib

/-! # A model of the URL-shortener core

Shallow embedding of `src/lib/url-shortener.ts`: the `UrlShortenerService`
registry (short-code → record mapping, click accounting, statistics) and the
`Logger` capped event log.

Modelling conventions:
* The JavaScript `Map` state is an association list in insertion order with
  unique keys; `set` replaces in place or appends, `delete` removes the
  binding, `values()` iterates in insertion order.
* Wall-clock timestamps (`new Date().toISOString()`) are modelled as naturals
  supplied by the caller; `Math.random()` draws and generated ids are likewise
  threaded in as explicit parameters.
* `localStorage` persistence is outside the model: within a session it never
  feeds back into the in-memory state, and a persistence failure is swallowed.
* The platform URL parser (`new URL(url)`) is external to the repository, so
  `isValidUrl` is an oracle parameter `validUrl : String → Bool`.
-/

/-- One entry of a record's `clickHistory`: `{ timestamp, userAgent?, referrer? }`. -/
structure ClickEvent where
  timestamp : Nat
  userAgent : Option String
  referrer : Option String
deriving DecidableEq, Repr

/-- The `ShortenedUrl` interface of the source (`clicks`, `clickHistory`,
optional `lastAccessed`, the `customCode` flag, `createdAt`). -/
structure ShortenedUrl where
  id : String
  originalUrl : String
  shortCode : String
  customCode : Bool
  createdAt : Nat
  clicks : Nat
  lastAccessed : Option Nat
  clickHistory : List ClickEvent
deriving DecidableEq, Repr

/-- The service's `urls : Map<string, ShortenedUrl>`, as an association list
in insertion order. -/
abbrev Registry := List (String × ShortenedUrl)

/-- `Map.prototype.get`: the value bound to the key, if any. -/
def mapGet (k : String) : Registry → Option ShortenedUrl
  | [] => none
  | (k', v) :: rest => if k' = k then some v else mapGet k rest

/-- `Map.prototype.has`. -/
def mapHas (k : String) (m : Registry) : Bool :=
  (mapGet k m).isSome

/-- `Map.prototype.set`: replace the binding in place when the key is present
(JS Maps keep the original insertion position), append otherwise. -/
def mapSet (k : String) (v : ShortenedUrl) : Registry → Registry
  | [] => [(k, v)]
  | (k', v') :: rest => if k' = k then (k, v) :: rest else (k', v') :: mapSet k v rest

/-- `Map.prototype.delete`: drop the binding of the key (keys are unique in a
JS Map, so only the first binding can exist). -/
def mapDelete (k : String) : Registry → Registry
  | [] => []
  | (k', v') :: rest => if k' = k then rest else (k', v') :: mapDelete k rest

/-- `Map.prototype.size` / `Array.from(map.values())` count. -/
def mapSize (m : Registry) : Nat := m.length

/-! ## Registry operations (`UrlShortenerService`) -/

/-- `getUrl(shortCode)`: a pure lookup (`this.urls.get(shortCode)`), returning
`null` — here `none` — on a miss. -/
def getUrl (urls : Registry) (code : String) : Option ShortenedUrl :=
  mapGet code urls

/-- The mutation `recordClick` performs on the record it found:
`url.clicks++`, `url.lastAccessed = now`, push the click event, and keep only
the last 100 history entries (`clickHistory.slice(-100)` once the length
exceeds 100). -/
def recordClickUpdate (u : ShortenedUrl) (ev : ClickEvent) : ShortenedUrl :=
  let h := u.clickHistory ++ [ev]
  { u with
    clicks := u.clicks + 1
    lastAccessed := some ev.timestamp
    clickHistory := if h.length > 100 then h.drop (h.length - 100) else h }

/-- `recordClick(shortCode, userAgent?, referrer?)`: `false` and no change when
the code is absent; otherwise update the found record in place and return
`true`. -/
def recordClick (urls : Registry) (code : String) (ev : ClickEvent) :
    Bool × Registry :=
  match mapGet code urls with
  | none => (false, urls)
  | some u => (true, mapSet code (recordClickUpdate u ev) urls)

/-- `deleteUrl(shortCode)`: `existed = urls.has(code)`; delete when present;
return `existed`. -/
def deleteUrl (urls : Registry) (code : String) : Bool × Registry :=
  if mapHas code urls then (true, mapDelete code urls) else (false, urls)

/-! ## Event log (`Logger`, `src` middleware part of the source) -/

/-- The four levels `"INFO" | "WARN" | "ERROR" | "DEBUG"`. -/
inductive LogLevel where
  | info
  | warn
  | error
  | debug
deriving DecidableEq, Repr

/-- A `LogEntry`; the free-form `context` record is modelled as an opaque
string-keyed association. -/
structure LogEntry where
  id : String
  timestamp : Nat
  level : LogLevel
  message : String
  context : Option (List (String × String))
  action : Option String
  userId : String
deriving DecidableEq, Repr

/-- `maxLogs = 1000`. -/
def maxLogs : Nat := 1000

/-- `createLogEntry`: stamps the entry with the injected id and time and the
fixed `getCurrentUserId()` result `"anonymous-user"`. -/
def createLogEntry (level : LogLevel) (message : String)
    (context : Option (List (String × String))) (action : Option String)
    (id : String) (now : Nat) : LogEntry :=
  { id := id
    timestamp := now
    level := level
    message := message
    context := context
    action := action
    userId := "anonymous-user" }

/-- `persistLog`: `logs.unshift(entry)`, then truncate to the newest
`maxLogs` entries (`logs.slice(0, maxLogs)`) when over capacity. Writing the
buffer to `localStorage` is outside the model. -/
def persistLog (e : LogEntry) (logs : List LogEntry) : List LogEntry :=
  let l := e :: logs
  if l.length > maxLogs then l.take maxLogs else l

/-- One `record` call (`info`/`warn`/`error`/`debug` all do exactly this):
build the entry and `persistLog` it. -/
def recordLog (level : LogLevel) (message : String)
    (context : Option (List (String × String))) (action : Option String)
    (id : String) (now : Nat) (logs : List LogEntry) : List LogEntry :=
  persistLog (createLogEntry level message context action id now) logs

/-- A sequence of `record` calls, oldest first; each element carries the
already-built entry of one call. -/
def recordMany (es : List LogEntry) (logs : List LogEntry) : List LogEntry :=
  es.foldl (fun l e => persistLog e l) logs

/-- `getLogs()`: a defensive copy of the buffer (`[...this.logs]`), newest
first. -/
def getLogs (logs : List LogEntry) : List LogEntry := logs

/-- `clearLogs()`: reset the buffer to `[]`, then `info("Logs cleared by
user", {}, "CLEAR_LOGS")` — which records one fresh entry into the emptied
buffer. -/
def clearLogs (_logs : List LogEntry) (id : String) (now : Nat) :
    List LogEntry :=
  recordLog .info "Logs cleared by user" (some []) (some "CLEAR_LOGS") id now []

/-! ## Shortening (`shortenUrl` and its validators) -/

/-- One character class test for the source's `[a-zA-Z0-9]`. -/
def isAlnumChar (c : Char) : Bool :=
  (decide ('a' ≤ c) && decide (c ≤ 'z')) ||
  (decide ('A' ≤ c) && decide (c ≤ 'Z')) ||
  (decide ('0' ≤ c) && decide (c ≤ '9'))

/-- `isValidShortCode`: the regex `^[a-zA-Z0-9]{3,20}$`. -/
def isValidShortCode (s : String) : Bool :=
  decide (3 ≤ s.length) && decide (s.length ≤ 20) && s.toList.all isAlnumChar

/-- The 62-character generation alphabet, in source order. -/
def codeChars : List Char :=
  "abcdefghijklmnopqrstuvwxyzABCDEFGHIJKLMNOPQRSTUVWXYZ0123456789".toList

/-- `generateShortCode`: six draws `chars.charAt(floor(random * chars.length))`.
`rand k, rand (k+1), …` are the successive `Math.random()` draws, already
scaled to naturals; reduction mod `codeChars.length` keeps each index in
range, exactly as `floor(random * 62)` is. -/
def generateShortCode (rand : Nat → Nat) (k : Nat) : String :=
  String.mk ((List.range 6).map fun i =>
    codeChars.getD (rand (k + i) % codeChars.length) 'a')

/-- The `do { shortCode = generateShortCode() } while (urls.has(shortCode))`
retry loop. The source loop is unbounded; `fuel` bounds the embedding, and
`none` stands for the loop still running after `fuel` draws of 6 characters. -/
def genFreshCode (urls : Registry) (rand : Nat → Nat) : Nat → Nat → Option String
  | 0, _ => none
  | fuel + 1, k =>
    let c := generateShortCode rand k
    if mapHas c urls then genFreshCode urls rand fuel (k + 6) else some c

/-- JavaScript truthiness of the optional `customCode` argument:
`undefined` and `""` are falsy, every other string is truthy. -/
def truthy : Option String → Bool
  | none => false
  | some s => !(s == "")

/-- The `ShortenedUrl` literal built on success: `clicks: 0`,
`clickHistory: []`, `customCode: !!customCode`, `createdAt: now`. -/
def mkRecord (id originalUrl shortCode : String) (isCustom : Bool) (now : Nat) :
    ShortenedUrl :=
  { id := id
    originalUrl := originalUrl
    shortCode := shortCode
    customCode := isCustom
    createdAt := now
    clicks := 0
    lastAccessed := none
    clickHistory := [] }

/-- `shortenUrl(originalUrl, customCode?)`. Checks the URL first; a truthy
custom code is validated (`InvalidShortCode` message) and checked for
collision (`ShortCodeTaken` message); otherwise a fresh code is generated by
the retry loop. On success the new record is inserted under its code. -/
def shortenUrl (validUrl : String → Bool) (urls : Registry)
    (originalUrl : String) (customCode : Option String)
    (rand : Nat → Nat) (fuel : Nat) (id : String) (now : Nat) :
    Except String (ShortenedUrl × Registry) :=
  if validUrl originalUrl = false then
    .error "Invalid URL format"
  else if truthy customCode then
    let c := customCode.getD ""
    if isValidShortCode c = false then
      .error "Custom shortcode must be 3-20 alphanumeric characters"
    else if mapHas c urls then
      .error "Custom shortcode already exists"
    else
      let r := mkRecord id originalUrl c true now
      .ok (r, mapSet c r urls)
  else
    match genFreshCode urls rand fuel 0 with
    | none => .error "shortcode generation retry budget exhausted"
    | some c =>
      let r := mkRecord id originalUrl c false now
      .ok (r, mapSet c r urls)

/-! ## Listing and statistics -/

/-- `getAllUrls()`: all values, sorted by `createdAt` descending with the
stable `Array.prototype.sort`. -/
def getAllUrls (urls : Registry) : List ShortenedUrl :=
  (urls.map Prod.snd).mergeSort (fun a b => decide (b.createdAt ≤ a.createdAt))

/-- `new Date(u.lastAccessed!).getTime()` for the `recentActivity` sort key. -/
def lastAccessedTime (u : ShortenedUrl) : Nat :=
  u.lastAccessed.getD 0

/-- The `UrlStats` interface. -/
structure UrlStats where
  totalUrls : Nat
  totalClicks : Nat
  topUrls : List ShortenedUrl
  recentActivity : List ShortenedUrl
deriving Repr

/-- `getStats()`: totals over `getAllUrls()`, the top-10 most-clicked records
with a positive click count, and the 10 most recently accessed records. -/
def getStats (urls : Registry) : UrlStats :=
  let allUrls := getAllUrls urls
  let totalClicks := allUrls.foldl (fun sum u => sum + u.clicks) 0
  { totalUrls := allUrls.length
    totalClicks := totalClicks
    topUrls :=
      ((allUrls.filter (fun u => decide (0 < u.clicks))).mergeSort
        (fun a b => decide (b.clicks ≤ a.clicks))).take 10
    recentActivity :=
      ((allUrls.filter (fun u => u.lastAccessed.isSome)).mergeSort
        (fun a b => decide (lastAccessedTime b ≤ lastAccessedTime a))).take 10 }

/-- Repeated `recordClick` hits on one record, oldest event first: the
record-level trace of N sequential successful clicks. -/
def clickTimes (u : ShortenedUrl) (evs : List ClickEvent) : ShortenedUrl :=
  evs.foldl recordClickUpdate u

/-! ## Basic facts about the map model -/

theorem mapGet_eq_none_iff (k : String) (m : Registry) :
    mapGet k m = none ↔ k ∉ m.map Prod.fst := by
  induction m with
  | nil => simp [mapGet]
  | cons p rest ih =>
    obtain ⟨k', v⟩ := p
    by_cases h : k' = k
    · subst h
      simp [mapGet]
    · simp [mapGet, h, ih, Ne.symm h]

theorem mapGet_mapDelete_self (k : String) (m : Registry)
    (h : (m.map Prod.fst).Nodup) : mapGet k (mapDelete k m) = none := by
  induction m with
  | nil => simp [mapDelete, mapGet]
  | cons p rest ih =>
    obtain ⟨k', v⟩ := p
    rw [List.map_cons, List.nodup_cons] at h
    by_cases hk : k' = k
    · subst hk
      simpa [mapDelete, mapGet_eq_none_iff] using h.1
    · simpa [mapDelete, hk, mapGet] using ih h.2

theorem mapHas_false_get_none {k : String} {m : Registry}
    (h : mapHas k m = false) : mapGet k m = none := by
  rcases hg : mapGet k m with _ | u
  · rfl
  · simp [mapHas, hg] at h

/-- Sample record used to instantiate hypotheses on concrete inputs. -/
def sampleRecord : ShortenedUrl :=
  mkRecord "rec-id-1" "https://example.com" "abc" true 0

/-- Sample click event used to instantiate hypotheses on concrete inputs. -/
def sampleClick (n : Nat) : ClickEvent :=
  { timestamp := n, userAgent := none, referrer := none }

/-- Sample log entry used to instantiate hypotheses on concrete inputs. -/
def sampleEntry (n : Nat) : LogEntry :=
  createLogEntry .info "event" none none "log-id" n

/-! ## Claims about deletion, missing-code clicks, and the event log -/

/-- C6: with the registry's keys unique (as they are in a JS `Map`),
deleting a short code and then looking it up yields a miss (`null`), and
`deleteUrl` returns `true` exactly when the code was present — in particular
it returns `false` on an absent code. -/
theorem delete_then_lookup (urls : Registry) (code : String)
    (hkeys : (urls.map Prod.fst).Nodup) :
    getUrl (deleteUrl urls code).2 code = none ∧
    (deleteUrl urls code).1 = mapHas code urls ∧
    (mapHas code urls = false → (deleteUrl urls code).1 = false) := by
  by_cases h : mapHas code urls = true
  · simp [deleteUrl, h, getUrl, mapGet_mapDelete_self code urls hkeys]
  · have hb : mapHas code urls = false := by
      cases hv : mapHas code urls
      · rfl
      · exact absurd hv h
    have hn : mapGet code urls = none := mapHas_false_get_none hb
    simp [deleteUrl, getUrl, hb, hn]

theorem delete_then_lookup_witness :
    getUrl (deleteUrl [("abc", sampleRecord)] "abc").2 "abc" = none ∧
    (deleteUrl [("abc", sampleRecord)] "abc").1 = mapHas "abc" [("abc", sampleRecord)] ∧
    (mapHas "abc" [("abc", sampleRecord)] = false →
      (deleteUrl [("abc", sampleRecord)] "abc").1 = false) :=
  delete_then_lookup [("abc", sampleRecord)] "abc" (by simp)

/-- C7: `recordClick` on a short code that is absent from the mapping returns
`false` and leaves the registry exactly as it was — same bindings, same
size. -/
theorem click_missing_code_noop (urls : Registry) (code : String)
    (ev : ClickEvent) (h : mapHas code urls = false) :
    recordClick urls code ev = (false, urls) ∧
    mapSize (recordClick urls code ev).2 = mapSize urls := by
  have hn : mapGet code urls = none := mapHas_false_get_none h
  simp [recordClick, hn]

theorem click_missing_code_noop_witness :
    recordClick [("abc", sampleRecord)] "zzz" (sampleClick 5) =
      (false, [("abc", sampleRecord)]) ∧
    mapSize (recordClick [("abc", sampleRecord)] "zzz" (sampleClick 5)).2 =
      mapSize [("abc", sampleRecord)] :=
  click_missing_code_noop [("abc", sampleRecord)] "zzz" (sampleClick 5) (by simp [mapHas, mapGet])

/-- C9: immediately after `clearLogs()` the buffer is not empty: it holds
exactly the one entry that logs the clear action itself, and `getLogs()`
returns exactly that entry. -/
theorem clear_leaves_one_entry (logs : List LogEntry) (id : String) (now : Nat) :
    getLogs (clearLogs logs id now) =
      [createLogEntry .info "Logs cleared by user" (some []) (some "CLEAR_LOGS") id now] ∧
    (getLogs (clearLogs logs id now)).length = 1 := by
  constructor <;> simp [getLogs, clearLogs, recordLog, persistLog, maxLogs]

/-! ## Event-log capacity -/

theorem persistLog_eq_take (e : LogEntry) (logs : List LogEntry) :
    persistLog e logs = (e :: logs).take maxLogs := by
  unfold persistLog
  by_cases h : (e :: logs).length > maxLogs
  · simp [h]
  · simp [h, List.take_of_length_le (Nat.le_of_not_lt h)]

theorem take_append_take {α : Type*} (a t : List α) (n : Nat) :
    (a ++ t.take n).take n = (a ++ t).take n := by
  rw [List.take_append_eq_append_take, List.take_append_eq_append_take,
    List.take_take]
  congr 1
  exact congrArg (fun m => List.take m t) (Nat.min_eq_left (Nat.sub_le _ _))

theorem recordMany_eq_take (es : List LogEntry) (logs : List LogEntry)
    (h : logs.length ≤ maxLogs) :
    recordMany es logs = (es.reverse ++ logs).take maxLogs := by
  induction es generalizing logs with
  | nil => simp [recordMany, List.take_of_length_le h]
  | cons e es ih =>
    have h' : (persistLog e logs).length ≤ maxLogs := by
      rw [persistLog_eq_take]
      simp [List.length_take]
    calc recordMany (e :: es) logs
        = recordMany es (persistLog e logs) := rfl
      _ = (es.reverse ++ persistLog e logs).take maxLogs := ih _ h'
      _ = (es.reverse ++ (e :: logs).take maxLogs).take maxLogs := by
          rw [persistLog_eq_take]
      _ = (es.reverse ++ (e :: logs)).take maxLogs := take_append_take _ _ _
      _ = ((e :: es).reverse ++ logs).take maxLogs := by simp

/-- C4: the event log never exceeds 1000 entries however many `record` calls
are made (from any buffer within capacity), and starting from an empty
buffer, N ≤ 1000 `record` calls leave exactly those N entries, newest
first. -/
theorem log_capacity_and_order (es : List LogEntry) (logs : List LogEntry)
    (h : logs.length ≤ maxLogs) :
    (recordMany es logs).length ≤ maxLogs ∧
    (es.length ≤ maxLogs →
      getLogs (recordMany es []) = es.reverse ∧
      (getLogs (recordMany es [])).length = es.length) := by
  constructor
  · rw [recordMany_eq_take es logs h]
    simp [List.length_take]
  · intro hN
    have he : recordMany es [] = (es.reverse ++ []).take maxLogs :=
      recordMany_eq_take es [] (by simp [maxLogs])
    have hr : recordMany es [] = es.reverse := by
      rw [he, List.append_nil, List.take_of_length_le (by simpa using hN)]
    constructor
    · simpa [getLogs] using hr
    · simp [getLogs, hr]

theorem log_capacity_and_order_witness :
    (recordMany [sampleEntry 0, sampleEntry 1] []).length ≤ maxLogs ∧
    getLogs (recordMany [sampleEntry 0, sampleEntry 1] []) =
      [sampleEntry 1, sampleEntry 0] ∧
    (getLogs (recordMany [sampleEntry 0, sampleEntry 1] [])).length = 2 := by
  have h := log_capacity_and_order [sampleEntry 0, sampleEntry 1] []
    (by simp [maxLogs])
  refine ⟨h.1, ?_, ?_⟩
  · simpa using (h.2 (by simp [maxLogs])).1
  · simpa using (h.2 (by simp [maxLogs])).2

/-! ## Click accounting (history capped at the most recent 100) -/

/-- The last `n` elements of a list (`Array.prototype.slice(-n)`), in their
original order. -/
def lastN {α : Type*} (n : Nat) (l : List α) : List α :=
  l.drop (l.length - n)

theorem lastN_eq_reverse_take {α : Type*} (n : Nat) (l : List α) :
    lastN n l = (l.reverse.take n).reverse := by
  rw [lastN, List.take_reverse, List.reverse_reverse]

theorem lastN_of_length_le {α : Type*} {n : Nat} {l : List α}
    (h : l.length ≤ n) : lastN n l = l := by
  rw [lastN, Nat.sub_eq_zero_of_le h, List.drop_zero]

theorem length_lastN {α : Type*} (n : Nat) (l : List α) :
    (lastN n l).length = min n l.length := by
  simp [lastN_eq_reverse_take, List.length_take]

theorem lastN_append_lastN {α : Type*} (n : Nat) (a b : List α) :
    lastN n (lastN n a ++ b) = lastN n (a ++ b) := by
  simp only [lastN_eq_reverse_take, List.reverse_append, List.reverse_reverse]
  rw [take_append_take]

theorem recordClickUpdate_clicks (u : ShortenedUrl) (ev : ClickEvent) :
    (recordClickUpdate u ev).clicks = u.clicks + 1 := rfl

theorem recordClickUpdate_history (u : ShortenedUrl) (ev : ClickEvent) :
    (recordClickUpdate u ev).clickHistory = lastN 100 (u.clickHistory ++ [ev]) := by
  show (if (u.clickHistory ++ [ev]).length > 100 then
      (u.clickHistory ++ [ev]).drop ((u.clickHistory ++ [ev]).length - 100)
    else u.clickHistory ++ [ev]) = lastN 100 (u.clickHistory ++ [ev])
  by_cases hl : (u.clickHistory ++ [ev]).length > 100
  · rw [if_pos hl]
    rfl
  · rw [if_neg hl, lastN_of_length_le (Nat.le_of_not_lt hl)]

theorem clickTimes_spec (evs : List ClickEvent) (u : ShortenedUrl)
    (h : u.clickHistory.length ≤ 100) :
    (clickTimes u evs).clicks = u.clicks + evs.length ∧
    (clickTimes u evs).clickHistory = lastN 100 (u.clickHistory ++ evs) := by
  induction evs generalizing u with
  | nil =>
    refine ⟨by simp [clickTimes], ?_⟩
    simp [clickTimes, lastN_of_length_le h]
  | cons ev evs ih =>
    have hstep : clickTimes u (ev :: evs) = clickTimes (recordClickUpdate u ev) evs := rfl
    have hlen : (recordClickUpdate u ev).clickHistory.length ≤ 100 := by
      rw [recordClickUpdate_history, length_lastN]
      exact Nat.min_le_left _ _
    obtain ⟨ihc, ihh⟩ := ih (recordClickUpdate u ev) hlen
    constructor
    · rw [hstep, ihc, recordClickUpdate_clicks]
      simp only [List.length_cons]
      omega
    · rw [hstep, ihh, recordClickUpdate_history, lastN_append_lastN]
      simp

/-- C1: starting from a freshly created record, `clicks` counts every click
ever recorded while `clickHistory` keeps exactly the most recent 100 click
events in chronological order; in particular after 150 sequential
`recordClick` hits `clicks = 150`, the history has length exactly 100, and it
equals the last 100 of the 150 events, oldest to newest. -/
theorem clicks_counted_history_capped (id url code : String) (isCustom : Bool)
    (now : Nat) (evs : List ClickEvent) :
    (clickTimes (mkRecord id url code isCustom now) evs).clicks = evs.length ∧
    (clickTimes (mkRecord id url code isCustom now) evs).clickHistory = lastN 100 evs ∧
    (evs.length = 150 →
      (clickTimes (mkRecord id url code isCustom now) evs).clicks = 150 ∧
      (clickTimes (mkRecord id url code isCustom now) evs).clickHistory.length = 100 ∧
      (clickTimes (mkRecord id url code isCustom now) evs).clickHistory = evs.drop 50) := by
  obtain ⟨hc, hh⟩ := clickTimes_spec evs (mkRecord id url code isCustom now)
    (by simp [mkRecord])
  have hh' : (clickTimes (mkRecord id url code isCustom now) evs).clickHistory
      = lastN 100 evs := by simpa [mkRecord] using hh
  have hc' : (clickTimes (mkRecord id url code isCustom now) evs).clicks
      = evs.length := by simpa [mkRecord] using hc
  refine ⟨hc', hh', ?_⟩
  intro h150
  refine ⟨by rw [hc', h150], ?_, ?_⟩
  · rw [hh', length_lastN, h150]
    omega
  · rw [hh', lastN, h150]

theorem clicks_counted_history_capped_witness :
    (clickTimes (mkRecord "i" "https://example.com" "abc" false 0)
        ((List.range 150).map sampleClick)).clicks = 150 ∧
    (clickTimes (mkRecord "i" "https://example.com" "abc" false 0)
        ((List.range 150).map sampleClick)).clickHistory.length = 100 ∧
    (clickTimes (mkRecord "i" "https://example.com" "abc" false 0)
        ((List.range 150).map sampleClick)).clickHistory =
      ((List.range 150).map sampleClick).drop 50 :=
  (clicks_counted_history_capped "i" "https://example.com" "abc" false 0
    ((List.range 150).map sampleClick)).2.2 (by simp)

/-! ## Statistics -/

theorem getStats_totalClicks (urls : Registry) :
    (getStats urls).totalClicks =
      (getAllUrls urls).foldl (fun sum u => sum + u.clicks) 0 := rfl

theorem getStats_totalUrls (urls : Registry) :
    (getStats urls).totalUrls = (getAllUrls urls).length := rfl

theorem getStats_topUrls (urls : Registry) :
    (getStats urls).topUrls =
      (((getAllUrls urls).filter (fun u => decide (0 < u.clicks))).mergeSort
        (fun a b => decide (b.clicks ≤ a.clicks))).take 10 := rfl

theorem foldl_add_clicks (l : List ShortenedUrl) (n : Nat) :
    l.foldl (fun sum u => sum + u.clicks) n = n + (l.map ShortenedUrl.clicks).sum := by
  induction l generalizing n with
  | nil => simp
  | cons u l ih => simp [ih, Nat.add_assoc]

/-- C5: in every registry state (so after any finite sequence of shorten,
click and delete operations), `getStats().totalClicks` is the sum of
`clicks` over the records `getAllUrls()` returns — equivalently over the raw
mapping — and `getStats().totalUrls` is the number of records. -/
theorem stats_totals_consistent (urls : Registry) :
    (getStats urls).totalClicks = ((getAllUrls urls).map ShortenedUrl.clicks).sum ∧
    (getStats urls).totalClicks = ((urls.map Prod.snd).map ShortenedUrl.clicks).sum ∧
    (getStats urls).totalUrls = mapSize urls := by
  have hperm : (getAllUrls urls).Perm (urls.map Prod.snd) :=
    List.mergeSort_perm _ _
  have h1 : (getStats urls).totalClicks =
      ((getAllUrls urls).map ShortenedUrl.clicks).sum := by
    rw [getStats_totalClicks, foldl_add_clicks]
    simp
  refine ⟨h1, ?_, ?_⟩
  · rw [h1]
    exact List.Perm.sum_eq (hperm.map ShortenedUrl.clicks)
  · rw [getStats_totalUrls, getAllUrls, List.length_mergeSort, List.length_map]
    rfl

/-- C8: `getStats().topUrls` has at most 10 entries, every entry has a
strictly positive click count, and the list is sorted by `clicks` in
descending order. -/
theorem topUrls_spec (urls : Registry) :
    (getStats urls).topUrls.length ≤ 10 ∧
    (∀ u ∈ (getStats urls).topUrls, 0 < u.clicks) ∧
    (getStats urls).topUrls.Pairwise (fun a b => b.clicks ≤ a.clicks) := by
  refine ⟨?_, ?_, ?_⟩
  · rw [getStats_topUrls]
    simp [List.length_take]
  · intro u hu
    rw [getStats_topUrls] at hu
    have h1 : u ∈ ((getAllUrls urls).filter (fun u => decide (0 < u.clicks))).mergeSort
        (fun a b => decide (b.clicks ≤ a.clicks)) :=
      List.Sublist.mem hu (List.take_sublist _ _)
    have h2 : u ∈ (getAllUrls urls).filter (fun u => decide (0 < u.clicks)) :=
      (List.mergeSort_perm _ _).mem_iff.mp h1
    have h3 := (List.mem_filter.mp h2).2
    simpa using h3
  · have hs := @List.sorted_mergeSort ShortenedUrl
      (fun a b => decide (b.clicks ≤ a.clicks))
      (fun a b c hab hbc => by
        simp only [decide_eq_true_eq] at hab hbc ⊢
        omega)
      (fun a b => by
        simp only [Bool.or_eq_true, decide_eq_true_eq]
        omega)
      ((getAllUrls urls).filter (fun u => decide (0 < u.clicks)))
    have hp := List.Pairwise.sublist (List.take_sublist 10 _) hs
    rw [getStats_topUrls]
    exact hp.imp (fun hab => by simpa using hab)

/-! ## Shortening: generated codes and custom-code validation -/

theorem mapGet_mapSet_self (k : String) (v : ShortenedUrl) (m : Registry) :
    mapGet k (mapSet k v m) = some v := by
  induction m with
  | nil => simp [mapSet, mapGet]
  | cons p rest ih =>
    obtain ⟨k', v'⟩ := p
    by_cases h : k' = k
    · subst h
      simp [mapSet, mapGet]
    · simp [mapSet, mapGet, h, ih]

theorem isAlnumChar_getD (n : Nat) : isAlnumChar (codeChars.getD n 'a') = true := by
  by_cases h : n < codeChars.length
  · rw [List.getD_eq_getElem _ _ h]
    exact List.all_eq_true.mp (by decide) _ (List.getElem_mem h)
  · rw [List.getD_eq_default _ _ (Nat.le_of_not_lt h)]
    decide

theorem generateShortCode_length (rand : Nat → Nat) (k : Nat) :
    (generateShortCode rand k).length = 6 := by
  simp [generateShortCode, String.length]

theorem generateShortCode_alnum (rand : Nat → Nat) (k : Nat) :
    (generateShortCode rand k).toList.all isAlnumChar = true := by
  rw [List.all_eq_true]
  intro c hc
  have : c ∈ (List.range 6).map fun i =>
      codeChars.getD (rand (k + i) % codeChars.length) 'a' := hc
  obtain ⟨i, _, rfl⟩ := List.mem_map.mp this
  exact isAlnumChar_getD _

theorem genFreshCode_spec (urls : Registry) (rand : Nat → Nat) :
    ∀ (fuel k : Nat) (c : String), genFreshCode urls rand fuel k = some c →
      c.length = 6 ∧ c.toList.all isAlnumChar = true ∧ mapHas c urls = false := by
  intro fuel
  induction fuel with
  | zero => intro k c h; cases h
  | succ fuel ih =>
    intro k c h
    rw [genFreshCode] at h
    by_cases hhit : mapHas (generateShortCode rand k) urls = true
    · rw [if_pos hhit] at h
      exact ih _ c h
    · rw [if_neg hhit] at h
      obtain rfl : generateShortCode rand k = c := Option.some.inj h
      exact ⟨generateShortCode_length rand k, generateShortCode_alnum rand k,
        Bool.eq_false_iff.mpr hhit⟩

/-- C2: when the original URL validates and no custom code is supplied, a
successful `shortenUrl` returns a record whose `shortCode` is a 6-character
alphanumeric string not previously present in the mapping, with `clicks = 0`
and empty `clickHistory`, and inserts exactly that record under that code.
(Success itself is the unbounded generation retry loop finding a free code,
modelled by `genFreshCode` returning one within its fuel.) -/
theorem shorten_generated_code_spec (validUrl : String → Bool) (urls : Registry)
    (url id : String) (rand : Nat → Nat) (fuel now : Nat)
    (r : ShortenedUrl) (urls' : Registry)
    (hurl : validUrl url = true)
    (hok : shortenUrl validUrl urls url none rand fuel id now = .ok (r, urls')) :
    r.shortCode.length = 6 ∧
    r.shortCode.toList.all isAlnumChar = true ∧
    mapHas r.shortCode urls = false ∧
    r.clicks = 0 ∧ r.clickHistory = [] ∧
    urls' = mapSet r.shortCode r urls ∧
    mapGet r.shortCode urls' = some r := by
  rw [shortenUrl, hurl] at hok
  simp only [Bool.true_eq_false, if_false, truthy, Bool.false_eq_true] at hok
  rcases hgen : genFreshCode urls rand fuel 0 with _ | c
  · rw [hgen] at hok
    cases hok
  · rw [hgen] at hok
    simp only [Except.ok.injEq, Prod.mk.injEq] at hok
    obtain ⟨h1, h2⟩ := hok
    subst h1
    subst h2
    obtain ⟨h6, halnum, hfree⟩ := genFreshCode_spec urls rand fuel 0 c hgen
    exact ⟨h6, halnum, hfree, rfl, rfl, rfl, mapGet_mapSet_self _ _ _⟩

theorem shorten_generated_code_spec_witness :
    (mkRecord "i" "https://example.com" "aaaaaa" false 0).shortCode.length = 6 ∧
    (mkRecord "i" "https://example.com" "aaaaaa" false 0).shortCode.toList.all
      isAlnumChar = true ∧
    mapHas (mkRecord "i" "https://example.com" "aaaaaa" false 0).shortCode [] = false ∧
    (mkRecord "i" "https://example.com" "aaaaaa" false 0).clicks = 0 ∧
    (mkRecord "i" "https://example.com" "aaaaaa" false 0).clickHistory = [] ∧
    mapSet "aaaaaa" (mkRecord "i" "https://example.com" "aaaaaa" false 0) [] =
      mapSet (mkRecord "i" "https://example.com" "aaaaaa" false 0).shortCode
        (mkRecord "i" "https://example.com" "aaaaaa" false 0) [] ∧
    mapGet (mkRecord "i" "https://example.com" "aaaaaa" false 0).shortCode
      (mapSet "aaaaaa" (mkRecord "i" "https://example.com" "aaaaaa" false 0) []) =
      some (mkRecord "i" "https://example.com" "aaaaaa" false 0) :=
  shorten_generated_code_spec (fun _ => true) [] "https://example.com" "i"
    (fun _ => 0) 1 0 (mkRecord "i" "https://example.com" "aaaaaa" false 0)
    (mapSet "aaaaaa" (mkRecord "i" "https://example.com" "aaaaaa" false 0) [])
    rfl rfl

/-- C3 counterexample: the empty string does not match `^[A-Za-z0-9]{3,20}$`,
yet supplying it as the custom code does not produce the invalid-shortcode
error — `""` is falsy in `if (customCode)`, so `shortenUrl` treats it as an
omitted code and succeeds with a generated one. -/
theorem custom_code_claim_counterexample :
    isValidShortCode "" = false ∧
    shortenUrl (fun _ => true) [] "https://example.com" (some "") (fun _ => 0) 1 "i" 0 =
      .ok (mkRecord "i" "https://example.com" "aaaaaa" false 0,
        mapSet "aaaaaa" (mkRecord "i" "https://example.com" "aaaaaa" false 0) []) ∧
    shortenUrl (fun _ => true) [] "https://example.com" (some "") (fun _ => 0) 1 "i" 0 ≠
      .error "Custom shortcode must be 3-20 alphanumeric characters" := by
  refine ⟨rfl, rfl, ?_⟩
  intro h
  cases h

/-- C3 (amended): for a valid original URL and a non-empty supplied custom
code, `shortenUrl` fails with the invalid-shortcode error whenever the code
does not match `^[A-Za-z0-9]{3,20}$`, and with the shortcode-taken error when
it matches but is already present in the mapping. -/
theorem custom_code_validation (validUrl : String → Bool) (urls : Registry)
    (url : String) (rand : Nat → Nat) (fuel : Nat) (id : String) (now : Nat)
    (c : String) (hurl : validUrl url = true) (hne : c ≠ "") :
    (isValidShortCode c = false →
      shortenUrl validUrl urls url (some c) rand fuel id now =
        .error "Custom shortcode must be 3-20 alphanumeric characters") ∧
    (isValidShortCode c = true → mapHas c urls = true →
      shortenUrl validUrl urls url (some c) rand fuel id now =
        .error "Custom shortcode already exists") := by
  have ht : truthy (some c) = true := by
    simp [truthy, hne]
  constructor
  · intro hbad
    rw [shortenUrl, hurl]
    simp [ht, hbad]
  · intro hgood htaken
    rw [shortenUrl, hurl]
    simp [ht, hgood, htaken]

theorem custom_code_validation_witness :
    shortenUrl (fun _ => true) [] "https://example.com" (some "a!") (fun _ => 0) 1 "i" 0 =
      .error "Custom shortcode must be 3-20 alphanumeric characters" ∧
    shortenUrl (fun _ => true) [("abc", sampleRecord)] "https://example.com" (some "abc")
        (fun _ => 0) 1 "i" 0 =
      .error "Custom shortcode already exists" :=
  ⟨(custom_code_validation (fun _ => true) [] "https://example.com" (fun _ => 0) 1
      "i" 0 "a!" rfl (by decide)).1 (by decide),
   (custom_code_validation (fun _ => true) [("abc", sampleRecord)] "https://example.com"
      (fun _ => 0) 1 "i" 0 "abc" rfl (by decide)).2 (by decide) (by decide)⟩

/-- C10: with a valid original URL the empty-string custom code behaves
exactly like an omitted one — no invalid-shortcode failure, a fresh
6-character code, `customCode = false` on the result — and with an invalid
original URL `shortenUrl` fails with the invalid-URL error whatever the
custom code is, because the URL is checked first. -/
theorem empty_custom_code_and_url_precedence (validUrl : String → Bool)
    (urls : Registry) (url : String) (rand : Nat → Nat) (fuel : Nat)
    (id : String) (now : Nat) :
    (validUrl url = true →
      shortenUrl validUrl urls url (some "") rand fuel id now =
        shortenUrl validUrl urls url none rand fuel id now ∧
      (∀ c, genFreshCode urls rand fuel 0 = some c →
        shortenUrl validUrl urls url (some "") rand fuel id now =
          .ok (mkRecord id url c false now,
            mapSet c (mkRecord id url c false now) urls) ∧
        (mkRecord id url c false now).customCode = false ∧
        c.length = 6)) ∧
    (validUrl url = false →
      ∀ cc, shortenUrl validUrl urls url cc rand fuel id now =
        .error "Invalid URL format") := by
  constructor
  · intro hurl
    constructor
    · rw [shortenUrl, shortenUrl, hurl]
      simp [truthy]
    · intro c hgen
      rw [shortenUrl, hurl]
      simp only [Bool.true_eq_false, if_false, truthy, Bool.false_eq_true]
      rw [hgen]
      exact ⟨by simp, rfl, (genFreshCode_spec urls rand fuel 0 c hgen).1⟩
  · intro hurl cc
    rw [shortenUrl, hurl]
    simp

theorem empty_custom_code_and_url_precedence_witness :
    (shortenUrl (fun _ => true) [] "https://example.com" (some "") (fun _ => 0) 1 "i" 0 =
      shortenUrl (fun _ => true) [] "https://example.com" none (fun _ => 0) 1 "i" 0 ∧
     shortenUrl (fun _ => true) [] "https://example.com" (some "") (fun _ => 0) 1 "i" 0 =
      .ok (mkRecord "i" "https://example.com" "aaaaaa" false 0,
        mapSet "aaaaaa" (mkRecord "i" "https://example.com" "aaaaaa" false 0) []) ∧
     (mkRecord "i" "https://example.com" "aaaaaa" false 0).customCode = false ∧
     ("aaaaaa" : String).length = 6) ∧
    shortenUrl (fun _ => false) [] "not a url" (some "docs") (fun _ => 0) 1 "i" 0 =
      .error "Invalid URL format" := by
  have h1 := (empty_custom_code_and_url_precedence (fun _ => true) [] "https://example.com"
    (fun _ => 0) 1 "i" 0).1 rfl
  have h2 := (empty_custom_code_and_url_precedence (fun _ => false) [] "not a url"
    (fun _ => 0) 1 "i" 0).2 rfl (some "docs")
  exact ⟨⟨h1.1, h1.2 "aaaaaa" rfl⟩, h2⟩

/-- A record that has been clicked, for instantiating the statistics claims. -/
def clickedSample : ShortenedUrl :=
  clickTimes sampleRecord [sampleClick 1, sampleClick 2]

theorem topUrls_spec_witness :
    (getStats [("abc", clickedSample)]).topUrls.length ≤ 10 ∧
    0 < clickedSample.clicks ∧
    (getStats [("abc", clickedSample)]).topUrls.Pairwise
      (fun a b => b.clicks ≤ a.clicks) := by
  have h := topUrls_spec [("abc", clickedSample)]
  refine ⟨h.1, ?_, h.2.2⟩
  apply h.2.1
  rw [getStats_topUrls]
  simp [getAllUrls, List.mergeSort_singleton, clickedSample, clickTimes,
    recordClickUpdate, List.filter]
